import Mathlib

set_option linter.unusedVariables false

/-!
Verification of the light-transport core of the `infiniteway/ray-tracer`
repository against its natural-language specification.

The C++ sources are shallowly embedded here:

* `glm::vec3` (32-bit float triples) is embedded as `Vec3`, a triple of
  rationals; float arithmetic is idealised as exact rational arithmetic
  except where IEEE special values decide a claim, in which case the
  relevant operations are modelled exactly on an extended type `F32`.
* every square root used by the code (`glm::length`, `glm::distance`,
  `glm::normalize`, `glm::refract`) is irrational in general, so it is
  abstracted into an oracle field `ExtOracle.sqrtq`; theorems quantify over the
  oracle, and witnesses instantiate it with the exact values taken on the
  concrete inputs involved.
* code of the repository whose implementation is not among the given
  sources (triangle / sphere intersection bodies, the material predicate
  implementations, `CalculateSpecularLighting`, the KD-tree photon query,
  the random samplers, `CalculateSchlicksApproximation`) is abstracted
  into data / function fields of the corresponding structures, so the
  theorems hold for every implementation of those parts.
* the RNG-driven samplers (`GetRandomPositionOnSurface`,
  `CosineWeightedHemisphereSampleDirection`) are modelled as fixed
  oracles, which suffices because no claim at hand depends on the
  distribution of the samples.
-/

/-- FLT_EPSILON, the machine epsilon of 32-bit floats: 2 ^ (-23). -/
def FLT_EPSILON : ℚ := 1 / 2 ^ 23

/-- FLT_MAX, the largest finite 32-bit float: (2 - 2 ^ (-23)) * 2 ^ 127. -/
def FLT_MAX : ℚ := 2 ^ 128 - 2 ^ 104

/-- Embedding of `glm::vec3`: a triple of (idealised) 32-bit floats. -/
structure Vec3 where
  x : ℚ
  y : ℚ
  z : ℚ
deriving DecidableEq, Repr

namespace Vec3

def add (a b : Vec3) : Vec3 := ⟨a.x + b.x, a.y + b.y, a.z + b.z⟩

def sub (a b : Vec3) : Vec3 := ⟨a.x - b.x, a.y - b.y, a.z - b.z⟩

def neg (a : Vec3) : Vec3 := ⟨-a.x, -a.y, -a.z⟩

/-- Componentwise product, as `glm`'s `vec3 * vec3`. -/
def hmul (a b : Vec3) : Vec3 := ⟨a.x * b.x, a.y * b.y, a.z * b.z⟩

def smul (c : ℚ) (a : Vec3) : Vec3 := ⟨c * a.x, c * a.y, c * a.z⟩

instance : Add Vec3 := ⟨add⟩

instance : Sub Vec3 := ⟨sub⟩

instance : Neg Vec3 := ⟨neg⟩

instance : Mul Vec3 := ⟨hmul⟩

instance : SMul ℚ Vec3 := ⟨smul⟩

instance : Zero Vec3 := ⟨⟨0, 0, 0⟩⟩

/-- Embedding of `glm::dot`. -/
def dot (a b : Vec3) : ℚ := a.x * b.x + a.y * b.y + a.z * b.z

end Vec3

/-- Embedding of `Ray` (`ray.from` is spelled `origin` since `from` is a
reserved word). -/
structure Ray where
  origin : Vec3
  direction : Vec3
deriving DecidableEq, Repr

/-- Embedding of `AABB` (fields `minimum` / `maximum` as in the source). -/
structure AABB where
  minimum : Vec3
  maximum : Vec3
deriving DecidableEq, Repr

/-- Oracles for repository / library code whose bodies are not among the
given sources and which produce irrational values in general:
`sqrtq` stands for the real square root used by `glm::length`,
`glm::distance`, `glm::normalize` and `glm::refract`; `schlick` stands for
`Utility::Rendering::CalculateSchlicksApproximation(direction, normal, n1, n2)`. -/
structure ExtOracle where
  sqrtq : ℚ → ℚ
  schlick : Vec3 → Vec3 → ℚ → ℚ → ℚ

/-- Embedding of `glm::length`: the square root of the self dot product. -/
def glmLength (ext : ExtOracle) (v : Vec3) : ℚ := ext.sqrtq (Vec3.dot v v)

/-- Embedding of `glm::distance`: the length of the difference. -/
def glmDistance (ext : ExtOracle) (a b : Vec3) : ℚ := glmLength ext (a - b)

/-- Embedding of `glm::normalize`: the vector scaled by the inverse square
root of its squared norm. -/
def glmNormalize (ext : ExtOracle) (v : Vec3) : Vec3 := (1 / glmLength ext v) • v

/-- Embedding of `glm::reflect`: `I - 2 * dot(N, I) * N` (fully rational). -/
def glmReflect (i n : Vec3) : Vec3 := i - (2 * Vec3.dot n i) • n

/-- Embedding of `glm::refract`: `k = 1 - eta^2 * (1 - dot(N,I)^2)`; zero
vector on total internal reflection, else `eta*I - (eta*dot(N,I) + sqrt k)*N`. -/
def glmRefract (ext : ExtOracle) (i n : Vec3) (eta : ℚ) : Vec3 :=
  let d := Vec3.dot n i
  let k := 1 - eta ^ 2 * (1 - d ^ 2)
  if k < 0 then 0 else (eta • i) - (eta * d + ext.sqrtq k) • n

/-- Embedding of `Material`. The attribute set is the one the renderers
read (`reflectivity`, `transparency`, ...). The predicate results
(`IsEmissive()` and friends) and `CalculateSpecularLighting` have no
implementation among the given sources, so they are abstract fields;
the theorems hold for every value of them. -/
structure Material where
  surfaceColor : Vec3
  emissionColor : Vec3
  reflectivity : ℚ
  transparency : ℚ
  specularity : ℚ
  specularExponent : ℚ
  refractiveIndex : ℚ
  isEmissive : Bool
  isReflective : Bool
  isTransparent : Bool
  isSpecular : Bool
  calculateSpecularLighting : Vec3 → Vec3 → Vec3 → Vec3 → Vec3

/-- Embedding of `LambertianMaterial::CalculateDiffuseLighting`
(LambertianMaterial.cpp):
`max(0, dot(-inDirection, normal)) * (incomingRadiance * surfaceColor)`. -/
def Material.calculateDiffuseLighting (m : Material)
    (inDirection outDirection normal incomingRadiance : Vec3) : Vec3 :=
  max 0 (Vec3.dot (-inDirection) normal) • (incomingRadiance * m.surfaceColor)

/-- Embedding of `Primitive`. The intersection bodies (Triangle.cpp,
Sphere.cpp) are not among the given sources; `rayIntersection ray cull`
returns the distance out-parameter when the C++ member returns `true`
(its contract, per the callers' asserts, is a distance above `FLT_EPSILON`). -/
structure Primitive where
  rayIntersection : Ray → Bool → Option ℚ
  getNormal : Vec3 → Vec3
  aabb : AABB

/-- Embedding of `Photon` (field names from the renderer's uses:
`position`, `direction`, `color`, `primitive`). -/
structure Photon where
  position : Vec3
  direction : Vec3
  color : Vec3
  primitive : Primitive

/-- Embedding of the photon map as its query contract: the KD-tree body is
not among the given sources, so the queries are abstract. `queryIndirect`
is `GetIndirectPhotonsAtPositionWithinRadius` (position, radius); the
caustic query is carried along because the specification describes a
caustic gather. -/
structure PhotonMap where
  queryIndirect : Vec3 → ℚ → List Photon
  queryCaustic : Vec3 → ℚ → List Photon

/-- Embedding of `RenderGroup`: one material, an ordered list of
primitives, and the `GetRandomPositionOnSurface` sampler as an oracle. -/
structure RenderGroup where
  material : Material
  primitives : List Primitive
  randomSurfacePoint : Vec3

/-- Embedding of `Scene`. The C++ `emissiveRenderGroups` holds
`RenderGroup*` pointers into `renderGroups`; a pointer to
`renderGroups[i]` is modelled as the index `i` (this also models the
pointer comparison `&renderGroup == lightSource` as index equality). -/
structure Scene where
  renderGroups : List RenderGroup
  emissiveRenderGroups : List Nat
  axisAlignedBoundingBox : AABB

namespace Scene

/-- The running "closest intersection distance" of `Scene::RayCast`:
`FLT_MAX` until a hit has been stored. -/
def bestDist : Option (Nat × Nat × ℚ) → ℚ
  | none => FLT_MAX
  | some (_, _, t) => t

/-- One iteration of the `Scene::RayCast` inner loop body: keep the
candidate exactly when its distance is strictly below the running best. -/
def rcStep (acc : Option (Nat × Nat × ℚ)) (c : Nat × Nat × ℚ) :
    Option (Nat × Nat × ℚ) :=
  if c.2.2 < bestDist acc then some c else acc

/-- The inner loop of `Scene::RayCast` over the primitives of group `gi`,
with `j` the index of the first primitive of `ps` in the group. -/
def scanPrims (ray : Ray) (cull : Bool) (gi : Nat) :
    Nat → List Primitive → Option (Nat × Nat × ℚ) → Option (Nat × Nat × ℚ)
  | _, [], acc => acc
  | j, p :: ps, acc =>
    let acc2 := match p.rayIntersection ray cull with
      | some t => if t < bestDist acc then some (gi, j, t) else acc
      | none => acc
    scanPrims ray cull gi (j + 1) ps acc2

/-- The outer loop of `Scene::RayCast` over the render groups, with `i`
the index of the first group of `gs`. -/
def scanGroups (ray : Ray) (cull : Bool) :
    Nat → List RenderGroup → Option (Nat × Nat × ℚ) → Option (Nat × Nat × ℚ)
  | _, [], acc => acc
  | i, g :: gs, acc =>
    scanGroups ray cull (i + 1) gs (scanPrims ray cull i 0 g.primitives acc)

/-- Embedding of `Scene::RayCast` (Scene.cpp lines 191-210): run both
loops starting from `closestInterectionDistance = FLT_MAX`, then report a
hit exactly when the final distance is below `FLT_MAX - FLT_EPSILON`.
The three out-parameters become the result triple
(group index, primitive index, distance). -/
def rayCast (s : Scene) (ray : Ray) (cullBackFace : Bool := false) :
    Option (Nat × Nat × ℚ) :=
  match scanGroups ray cullBackFace 0 s.renderGroups none with
  | some (i, j, t) => if t < FLT_MAX - FLT_EPSILON then some (i, j, t) else none
  | none => none

/-- Modelled from the spec: `Scene::RenderGroupRayCast` is declared and
called by both renderers but its body is not among the given sources; the
spec (section 4.2) prescribes the `raycast` contract restricted to the
primitives of a single render group. -/
def renderGroupRayCast (s : Scene) (ray : Ray) (gi : Nat) : Option (Nat × ℚ) :=
  match s.renderGroups.get? gi with
  | none => none
  | some g =>
    match scanPrims ray false gi 0 g.primitives none with
    | some (_, j, t) => if t < FLT_MAX - FLT_EPSILON then some (j, t) else none
    | none => none

/-- The loop of `Scene::Initialize` collecting the indices of the groups
whose material is emissive, `i` being the index of the head of `gs`. -/
def emissiveIndicesFrom : Nat → List RenderGroup → List Nat
  | _, [] => []
  | i, g :: gs =>
    (if g.material.isEmissive then [i] else []) ++ emissiveIndicesFrom (i + 1) gs

/-- The scene-AABB loop of `Scene::Initialize`: componentwise min / max of
all primitive AABBs, folded from `(FLT_MAX, -FLT_MAX)`. -/
def sceneAabb (gs : List RenderGroup) : AABB :=
  let lo0 : Vec3 := ⟨FLT_MAX, FLT_MAX, FLT_MAX⟩
  let hi0 : Vec3 := ⟨-FLT_MAX, -FLT_MAX, -FLT_MAX⟩
  let f := fun (b : Vec3 × Vec3) (p : Primitive) =>
    (⟨min p.aabb.minimum.x b.1.x, min p.aabb.minimum.y b.1.y, min p.aabb.minimum.z b.1.z⟩,
     ⟨max p.aabb.maximum.x b.2.x, max p.aabb.maximum.y b.2.y, max p.aabb.maximum.z b.2.z⟩)
  let r := gs.foldl (fun b g => g.primitives.foldl f b) (lo0, hi0)
  ⟨r.1, r.2⟩

/-- Embedding of `Scene::Initialize` (Scene.cpp lines 28-53): push the
emissive group indices onto `emissiveRenderGroups` (the source never
clears the vector first) and recompute the scene bounding box. -/
def initScene (s : Scene) : Scene :=
  { s with
    emissiveRenderGroups :=
      s.emissiveRenderGroups ++ emissiveIndicesFrom 0 s.renderGroups
    axisAlignedBoundingBox := sceneAabb s.renderGroups }

/-- The proposition that the primitive at (group `i`, primitive `j`)
intersects `ray` at distance `t`. -/
def hitsAt (s : Scene) (ray : Ray) (cull : Bool) (i j : Nat) (t : ℚ) : Prop :=
  ∃ g p, s.renderGroups.get? i = some g ∧ g.primitives.get? j = some p ∧
    p.rayIntersection ray cull = some t

end Scene

/-- The candidate hits contributed by the primitives `ps` of group `gi`
(first primitive index `j`), in the iteration order of `Scene::RayCast`. -/
def primCandidates (ray : Ray) (cull : Bool) (gi : Nat) :
    Nat → List Primitive → List (Nat × Nat × ℚ)
  | _, [] => []
  | j, p :: ps =>
    (match p.rayIntersection ray cull with
      | some t => [(gi, j, t)]
      | none => []) ++ primCandidates ray cull gi (j + 1) ps

/-- All candidate hits of the groups `gs` (first group index `i`), in the
iteration order of `Scene::RayCast`. -/
def groupCandidates (ray : Ray) (cull : Bool) :
    Nat → List RenderGroup → List (Nat × Nat × ℚ)
  | _, [] => []
  | i, g :: gs =>
    primCandidates ray cull i 0 g.primitives ++ groupCandidates ray cull (i + 1) gs

/-- Strict iteration order on (group index, primitive index) pairs. -/
def lexLt (a b : Nat × Nat × ℚ) : Prop :=
  a.1 < b.1 ∨ (a.1 = b.1 ∧ a.2.1 < b.2.1)

/-- Embedding of `MonteCarloRenderer`: the scene, the depth cap, the
sqrt / Schlick oracles, and the cosine-weighted hemisphere sampler
(`Utility::Math::CosineWeightedHemisphereSampleDirection`) as an oracle. -/
structure MonteCarloRenderer where
  scene : Scene
  MAX_DEPTH : Nat
  ext : ExtOracle
  cosineSample : Vec3 → Vec3

/-- One light source's contribution inside the direct-lighting loop of
`MonteCarloRenderer::TraceRay` (lines 75-111): shadow ray towards a random
point on the light, accepted only if the nearest hit is that very group;
diffuse term scaled by `rf * tf`, plus an unscaled specular term when the
material is specular. `continue` paths contribute zero. -/
def mcDirectLight (R : MonteCarloRenderer) (rayDir P N : Vec3) (mat : Material)
    (rf tf : ℚ) (lidx : Nat) : Vec3 :=
  match R.scene.renderGroups.get? lidx with
  | none => 0
  | some lightSource =>
    let shadowRayDirection := glmNormalize R.ext (lightSource.randomSurfacePoint - P)
    if Vec3.dot shadowRayDirection N < FLT_EPSILON then 0 else
    let shadowRay : Ray := ⟨P + (0.0001 : ℚ) • N, shadowRayDirection⟩
    match R.scene.rayCast shadowRay with
    | none => 0
    | some (sg, sp, sd) =>
      if sg = lidx then
        match (R.scene.renderGroups.get? sg).bind (fun g => g.primitives.get? sp) with
        | none => 0
        | some lightPrimitive =>
          let lightNormal :=
            lightPrimitive.getNormal (shadowRay.origin + sd • shadowRay.direction)
          let lightFactor := Vec3.dot (-shadowRay.direction) lightNormal
          if lightFactor < FLT_EPSILON then 0 else
          let radiance := lightFactor • lightSource.material.emissionColor
          (rf * tf) •
              mat.calculateDiffuseLighting (-shadowRay.direction) (-rayDir) N radiance
            + (if mat.isSpecular then
                mat.calculateSpecularLighting (-shadowRay.direction) (-rayDir) N radiance
              else 0)
      else 0

/-- The refraction block of `MonteCarloRenderer::TraceRay` (lines 133-160):
Schlick at the entry, refract, look for an exit on the same render group,
Schlick again at the exit, plus the Fresnel-weighted specular reflection. -/
def mcRefraction (R : MonteCarloRenderer) (recurse : Ray → Vec3) (ray : Ray)
    (P N : Vec3) (mat : Material) (gi : Nat) : Vec3 :=
  let n1 : ℚ := 1
  let n2 := mat.refractiveIndex
  let schlickConstantOutside := R.ext.schlick ray.direction N n1 n2
  let refractedRay : Ray :=
    ⟨P - (0.001 : ℚ) • N, glmRefract R.ext ray.direction N (n1 / n2)⟩
  let base :=
    match R.scene.renderGroupRayCast refractedRay gi with
    | some (pi2, t2) =>
      match (R.scene.renderGroups.get? gi).bind (fun g => g.primitives.get? pi2) with
      | none => 0
      | some exitPrim =>
        let exitP := refractedRay.origin + t2 • refractedRay.direction
        let exitN := exitPrim.getNormal exitP
        let schlickConstantInside := R.ext.schlick refractedRay.direction (-exitN) n2 n1
        let outRay : Ray :=
          ⟨exitP + (0.01 : ℚ) • exitN, glmRefract R.ext refractedRay.direction (-exitN) (n2 / n1)⟩
        let f1 := (1 - schlickConstantOutside) * mat.transparency
        let incoming := (1 - schlickConstantInside) • recurse outRay
        f1 • mat.calculateDiffuseLighting refractedRay.direction (-ray.direction) N incoming
    | none =>
      ((1 - schlickConstantOutside) * mat.transparency) • recurse refractedRay
  let specularRay : Ray := ⟨P, glmReflect ray.direction N⟩
  base + (schlickConstantOutside * mat.specularity) •
    mat.calculateSpecularLighting (-specularRay.direction) (-ray.direction) N
      (recurse specularRay)

/-- The accumulation path of `MonteCarloRenderer::TraceRay` for a
non-emissive front-facing hit (lines 66-171): direct lighting averaged over
the emissive groups, one cosine-weighted indirect bounce, the whole diffuse
accumulator scaled by `rf * tf`, then refraction and perfect reflection. -/
def mcHitAccum (R : MonteCarloRenderer) (recurse : Ray → Vec3) (ray : Ray)
    (gi : Nat) (P N : Vec3) (mat : Material) : Vec3 :=
  let rf := 1 - mat.reflectivity
  let tf := 1 - mat.transparency
  let direct :=
    if rf > FLT_EPSILON ∧ tf > FLT_EPSILON then
      R.scene.emissiveRenderGroups.foldl
        (fun acc lidx => acc + mcDirectLight R ray.direction P N mat rf tf lidx) 0
    else 0
  let acc1 :=
    (1 / max 1 ((R.scene.emissiveRenderGroups.length : ℚ))) • direct
  let acc2 := acc1 +
    (if rf > FLT_EPSILON ∧ tf > FLT_EPSILON then
      let reflectionDirection := R.cosineSample N
      let diffuseRay : Ray := ⟨P, reflectionDirection⟩
      mat.calculateDiffuseLighting (-diffuseRay.direction) (-ray.direction) N
        (recurse diffuseRay)
    else 0)
  let acc3 := (rf * tf) • acc2
  let acc4 := acc3 +
    (if mat.isTransparent then mcRefraction R recurse ray P N mat gi else 0)
  acc4 +
    (if mat.isReflective then
      mat.reflectivity • recurse ⟨P, glmReflect ray.direction N⟩
    else 0)

/-- The body of `MonteCarloRenderer::TraceRay` after the depth check
(lines 24-171), with `recurse` standing for the recursive call at
`DEPTH + 1`: nudge the ray by `0.001 * direction`, cast, cull back faces,
take the emissive branch (which adds the diffuse self term of line 62), or
fall through to the accumulation path. -/
def mcBody (R : MonteCarloRenderer) (recurse : Ray → Vec3) (depth : Nat)
    (inRay : Ray) : Vec3 :=
  let ray : Ray := ⟨inRay.origin + (0.001 : ℚ) • inRay.direction, inRay.direction⟩
  match R.scene.rayCast ray with
  | none => 0
  | some (gi, pi, t) =>
    match R.scene.renderGroups.get? gi with
    | none => 0
    | some group =>
      match group.primitives.get? pi with
      | none => 0
      | some prim =>
        let P := ray.origin + t • ray.direction
        let N := prim.getNormal P
        if Vec3.dot (-ray.direction) N < FLT_EPSILON then 0
        else
          let mat := group.material
          if mat.isEmissive then
            let f := if depth ≥ 1 then Vec3.dot (-ray.direction) N else 1
            f • mat.emissionColor +
              mat.calculateDiffuseLighting (-N) (-ray.direction) N mat.emissionColor
          else mcHitAccum R recurse ray gi P N mat

/-- Fuel-indexed unfolding of `MonteCarloRenderer::TraceRay`; the fuel is
`MAX_DEPTH - DEPTH`, which the hard depth check keeps positive on every
recursive call, so a zero-fuel call only ever happens at `DEPTH = MAX_DEPTH`
where the source returns black anyway. -/
def mcTraceRayF (R : MonteCarloRenderer) : Nat → Nat → Ray → Vec3
  | 0, _, _ => 0
  | fuel + 1, depth, ray =>
    if depth == R.MAX_DEPTH then 0
    else mcBody R (mcTraceRayF R fuel (depth + 1)) depth ray

/-- Embedding of `MonteCarloRenderer::TraceRay`. -/
def MonteCarloRenderer.traceRay (R : MonteCarloRenderer) (ray : Ray)
    (depth : Nat) : Vec3 :=
  mcTraceRayF R (R.MAX_DEPTH - depth) depth ray

/-- Embedding of `MonteCarloRenderer::GetPixelColor`: a primary-ray trace
at the default depth 0. -/
def MonteCarloRenderer.getPixelColor (R : MonteCarloRenderer) (ray : Ray) : Vec3 :=
  R.traceRay ray 0

/-- Embedding of `PhotonMapRenderer`: scene, depth cap, the gather radius
and weight configuration constants (PhotonMapRenderer.h is not among the
given sources, so they stay symbolic), the photon map and the oracles. -/
structure PhotonMapRenderer where
  scene : Scene
  MAX_DEPTH : Nat
  PHOTON_SEARCH_RADIUS : ℚ
  WEIGHT_FACTOR : ℚ
  photonMap : PhotonMap
  ext : ExtOracle

/-- One light source's contribution inside the direct-lighting loop of
`PhotonMapRenderer::TraceRay` (lines 76-112); unlike the Monte Carlo
renderer, the specular term is also scaled by `rf * tf` (line 106). -/
def pmDirectLight (R : PhotonMapRenderer) (rayDir P N : Vec3) (mat : Material)
    (rf tf : ℚ) (lidx : Nat) : Vec3 :=
  match R.scene.renderGroups.get? lidx with
  | none => 0
  | some lightSource =>
    let shadowRayDirection := glmNormalize R.ext (lightSource.randomSurfacePoint - P)
    if Vec3.dot shadowRayDirection N < FLT_EPSILON then 0 else
    let shadowRay : Ray := ⟨P + (0.0001 : ℚ) • N, shadowRayDirection⟩
    match R.scene.rayCast shadowRay with
    | none => 0
    | some (sg, sp, sd) =>
      if sg = lidx then
        match (R.scene.renderGroups.get? sg).bind (fun g => g.primitives.get? sp) with
        | none => 0
        | some lightPrimitive =>
          let lightNormal :=
            lightPrimitive.getNormal (shadowRay.origin + sd • shadowRay.direction)
          let lightFactor := Vec3.dot (-shadowRay.direction) lightNormal
          if lightFactor < FLT_EPSILON then 0 else
          let radiance := lightFactor • lightSource.material.emissionColor
          (rf * tf) •
              mat.calculateDiffuseLighting (-shadowRay.direction) (-rayDir) N radiance
            + (if mat.isSpecular then
                (rf * tf) •
                  mat.calculateSpecularLighting (-shadowRay.direction) (-rayDir) N radiance
              else 0)
      else 0

/-- The indirect-photon gather of `PhotonMapRenderer::TraceRay` (lines
119-141): query the indirect photons within `PHOTON_SEARCH_RADIUS`, weight
each by `max(0, 1 - dist * WEIGHT_FACTOR)`, the normal dot (the photon's
primitive's normal evaluated at the intersection point, line 126) and
`1 / photon count`, and feed `f * energy` through the diffuse BRDF. -/
def pmIndirectGather (R : PhotonMapRenderer) (P N rayDir : Vec3)
    (mat : Material) : Vec3 :=
  let nodes := R.photonMap.queryIndirect P R.PHOTON_SEARCH_RADIUS
  let SIZE_FACTOR : ℚ := if nodes.length > 0 then 1 / (nodes.length : ℚ) else 0
  nodes.foldl
    (fun acc ph =>
      let distance := glmDistance R.ext P ph.position
      let weight := max 0 (1 - distance * R.WEIGHT_FACTOR)
      let photonNormal := ph.primitive.getNormal P
      let f := SIZE_FACTOR * max 0 (Vec3.dot photonNormal N) * weight
      acc + mat.calculateDiffuseLighting ph.direction (-rayDir) N (f • ph.color))
    0

/-- The refraction block of `PhotonMapRenderer::TraceRay` (lines 148-173),
which computes the outgoing ray: refract at the entry; if the ray exits the
same render group, move to the exit (the exit normal is evaluated at the
original intersection point, line 162) and refract once more. No Schlick
term appears in this renderer. -/
def pmRefractedRay (R : PhotonMapRenderer) (ray : Ray) (P N : Vec3)
    (mat : Material) (gi : Nat) : Ray :=
  let n1 : ℚ := 1
  let n2 := mat.refractiveIndex
  let r0 : Ray := ⟨P - (0.001 : ℚ) • N, glmRefract R.ext ray.direction N (n1 / n2)⟩
  match R.scene.renderGroupRayCast r0 gi with
  | some (pi2, t2) =>
    match (R.scene.renderGroups.get? gi).bind (fun g => g.primitives.get? pi2) with
    | none => r0
    | some exitPrim =>
      let exitP := r0.origin + t2 • r0.direction
      let exitN := exitPrim.getNormal P
      ⟨exitP + (0.001 : ℚ) • exitN, glmRefract R.ext r0.direction (-exitN) (n2 / n1)⟩
  | none => r0

/-- The accumulation path of `PhotonMapRenderer::TraceRay` for a
non-emissive front-facing hit (lines 69-182), before the final `0.95`
scale: averaged direct lighting, the indirect-photon gather, the diffuse
accumulator scaled by `rf * tf`, then refraction and reflection. -/
def pmHitAccum (R : PhotonMapRenderer) (recurse : Ray → Vec3) (ray : Ray)
    (gi : Nat) (P N : Vec3) (mat : Material) : Vec3 :=
  let rf := 1 - mat.reflectivity
  let tf := 1 - mat.transparency
  let direct :=
    if rf > FLT_EPSILON ∧ tf > FLT_EPSILON then
      R.scene.emissiveRenderGroups.foldl
        (fun acc lidx => acc + pmDirectLight R ray.direction P N mat rf tf lidx) 0
    else 0
  let acc1 :=
    (1 / max 1 ((R.scene.emissiveRenderGroups.length : ℚ))) • direct
  let acc2 := acc1 +
    (if rf > FLT_EPSILON ∧ tf > FLT_EPSILON then
      pmIndirectGather R P N ray.direction mat
    else 0)
  let acc3 := (rf * tf) • acc2
  let acc4 := acc3 +
    (if mat.isTransparent then
      mat.transparency • recurse (pmRefractedRay R ray P N mat gi)
    else 0)
  acc4 +
    (if mat.isReflective then
      mat.reflectivity • recurse ⟨P, glmReflect ray.direction N⟩
    else 0)

/-- The body of `PhotonMapRenderer::TraceRay` after the depth check (lines
24-185), with `recurse` standing for the recursive call at `DEPTH + 1`:
reject non-unit directions, cast (this renderer does not nudge the ray),
cull back faces, take the emissive branch (no self term here, line 66), or
scale the accumulation path by `0.95` (line 185). -/
def pmBody (R : PhotonMapRenderer) (recurse : Ray → Vec3) (depth : Nat)
    (ray : Ray) : Vec3 :=
  let rayLength := glmLength R.ext ray.direction
  if rayLength < 1 - 10 * FLT_EPSILON ∨ rayLength > 1 + 10 * FLT_EPSILON then 0
  else
    match R.scene.rayCast ray with
    | none => 0
    | some (gi, pi, t) =>
      match R.scene.renderGroups.get? gi with
      | none => 0
      | some group =>
        match group.primitives.get? pi with
        | none => 0
        | some prim =>
          let P := ray.origin + t • ray.direction
          let N := prim.getNormal P
          if Vec3.dot (-ray.direction) N < FLT_EPSILON then 0
          else
            let mat := group.material
            if mat.isEmissive then
              (if depth ≥ 1 then Vec3.dot (-ray.direction) N else 1) • mat.emissionColor
            else (0.95 : ℚ) • pmHitAccum R recurse ray gi P N mat

/-- Fuel-indexed unfolding of `PhotonMapRenderer::TraceRay`; as for the
Monte Carlo renderer, the fuel is `MAX_DEPTH - DEPTH`. -/
def pmTraceRayF (R : PhotonMapRenderer) : Nat → Nat → Ray → Vec3
  | 0, _, _ => 0
  | fuel + 1, depth, ray =>
    if depth == R.MAX_DEPTH then 0
    else pmBody R (pmTraceRayF R fuel (depth + 1)) depth ray

/-- Embedding of `PhotonMapRenderer::TraceRay`. -/
def PhotonMapRenderer.traceRay (R : PhotonMapRenderer) (ray : Ray)
    (depth : Nat) : Vec3 :=
  pmTraceRayF R (R.MAX_DEPTH - depth) depth ray

/-- Embedding of `PhotonMapRenderer::GetPixelColor`. -/
def PhotonMapRenderer.getPixelColor (R : PhotonMapRenderer) (ray : Ray) : Vec3 :=
  R.traceRay ray 0

/-- A 32-bit float value extended with the IEEE-754 special values. Used
only where a special value decides a claim (the unguarded division of
`Scene::CalculateDirectIlluminationAtPos`); finite arithmetic is exact. -/
inductive F32 where
  | fin : ℚ → F32
  | posInf : F32
  | negInf : F32
  | nan : F32
deriving DecidableEq, Repr

namespace F32

/-- Whether the value is an ordinary (finite) float. -/
def isFinite : F32 → Bool
  | fin _ => true
  | _ => false

/-- IEEE-754 division restricted to the cases that can arise here:
`x / 0` is `NaN` for `x = 0` and a signed infinity otherwise; an infinity
divided by a finite value stays infinite; `NaN` propagates. -/
def div : F32 → F32 → F32
  | fin a, fin b =>
    if b = 0 then (if a = 0 then nan else if a > 0 then posInf else negInf)
    else fin (a / b)
  | posInf, fin b => if b < 0 then negInf else posInf
  | negInf, fin b => if b < 0 then posInf else negInf
  | nan, _ => nan
  | _, _ => nan

/-- IEEE-754 multiplication restricted likewise: an infinity times zero is
`NaN`, an infinity times a nonzero finite value is a signed infinity, and
`NaN` propagates. -/
def mul : F32 → F32 → F32
  | fin a, fin b => fin (a * b)
  | posInf, fin b => if b = 0 then nan else if b > 0 then posInf else negInf
  | negInf, fin b => if b = 0 then nan else if b > 0 then negInf else posInf
  | fin a, posInf => if a = 0 then nan else if a > 0 then posInf else negInf
  | fin a, negInf => if a = 0 then nan else if a > 0 then negInf else posInf
  | _, _ => nan

end F32

/-- Embedding of `Scene::CalculateDirectIlluminationAtPos` (Scene.cpp lines
55-80): cast a ray from the offset position towards a random point on each
emissive group, accumulate the diffuse contribution whenever the nearest
hit is emissive, and finally scale by `1 / emissiveRenderGroups.size()` —
with no guard against an empty emissive list. The final scale is modelled
on `F32` so that the division by zero keeps its IEEE-754 meaning; the loop
itself only produces finite values. -/
def Scene.calculateDirectIlluminationAtPos (s : Scene) (ext : ExtOracle)
    (pos incomingDirection : Vec3) (prim : Primitive) (material : Material) :
    F32 × F32 × F32 :=
  let rayFrom := pos + (0.01 : ℚ) • prim.getNormal pos
  let colorAccumulator : Vec3 :=
    s.emissiveRenderGroups.foldl
      (fun acc lidx =>
        match s.renderGroups.get? lidx with
        | none => acc
        | some lightSource =>
          let lightSurfPos := lightSource.randomSurfacePoint
          let dir := glmNormalize ext (lightSurfPos - rayFrom)
          match s.rayCast ⟨rayFrom, dir⟩ false with
          | none => acc
          | some (gi, pi, _) =>
            match s.renderGroups.get? gi with
            | none => acc
            | some hitGroup =>
              if hitGroup.material.isEmissive then
                match hitGroup.primitives.get? pi with
                | none => acc
                | some lightPrim =>
                  let intersectionRadianceFactor :=
                    Vec3.dot (-dir) (lightPrim.getNormal lightSurfPos)
                  acc + material.calculateDiffuseLighting (-dir) incomingDirection
                    (prim.getNormal rayFrom)
                    (intersectionRadianceFactor • lightSource.material.emissionColor)
              else acc)
      0
  let scale := F32.div (F32.fin 1) (F32.fin ((s.emissiveRenderGroups.length : ℚ)))
  (F32.mul scale (F32.fin colorAccumulator.x),
   F32.mul scale (F32.fin colorAccumulator.y),
   F32.mul scale (F32.fin colorAccumulator.z))

/-- Componentwise clamp of a colour to at most one, as in the caustic
gather the specification describes. -/
def clampTo1 (v : Vec3) : Vec3 := ⟨min v.x 1, min v.y 1, min v.z 1⟩

/-- The caustic gather exactly as claim C4 states it (spec section 4.4):
gather caustic photons within `PHOTON_SEARCH_RADIUS`, weight each by
`max(0, 1 - dist * WEIGHT_FACTOR)` and the normal dot, filter through the
diffuse BRDF, clamp the sum per channel to one, and scale by
`CAUSTICS_STRENGTH_MULTIPLIER / PHOTON_SEARCH_AREA`. The source of
`PhotonMapRenderer::TraceRay` contains no such code; this definition
exists to compare the claim against the source. -/
def pmCausticGatherClaim (R : PhotonMapRenderer) (CSM PSA : ℚ)
    (P N rayDir : Vec3) (mat : Material) : Vec3 :=
  let nodes := R.photonMap.queryCaustic P R.PHOTON_SEARCH_RADIUS
  let s := nodes.foldl
    (fun acc ph =>
      let weight := max 0 (1 - glmDistance R.ext P ph.position * R.WEIGHT_FACTOR)
      let photonNormal := ph.primitive.getNormal ph.position
      acc + mat.calculateDiffuseLighting ph.direction (-rayDir) N
        ((max 0 (Vec3.dot photonNormal N) * weight) • ph.color))
    0
  (CSM / PSA) • clampTo1 s

/-- The indirect-photon gather exactly as claim C6 states it: the sum over
the gathered photons of the Lambertian
`max(0, dot(-photon_direction, N)) * (f * photon_energy) * surface_colour`
with `f = (1 / photon count) * max(0, dot(photon_normal, N)) * weight`,
where `photon_normal` is the normal of the primitive the photon landed on,
evaluated at the photon's own position. -/
def pmIndirectGatherClaim (R : PhotonMapRenderer) (P N rayDir : Vec3)
    (mat : Material) : Vec3 :=
  let nodes := R.photonMap.queryIndirect P R.PHOTON_SEARCH_RADIUS
  nodes.foldl
    (fun acc ph =>
      let weight := max 0 (1 - glmDistance R.ext P ph.position * R.WEIGHT_FACTOR)
      let photonNormal := ph.primitive.getNormal ph.position
      let f := (1 / (nodes.length : ℚ)) * max 0 (Vec3.dot photonNormal N) * weight
      acc + max 0 (Vec3.dot (-ph.direction) N) • ((f • ph.color) * mat.surfaceColor))
    0

/-- The indirect-photon gather in the claim's arithmetic form but with the
photon's primitive's normal evaluated at the shading intersection point,
which is what line 126 of PhotonMapRenderer.cpp computes. -/
def pmIndirectGatherClaimAtHit (R : PhotonMapRenderer) (P N rayDir : Vec3)
    (mat : Material) : Vec3 :=
  let nodes := R.photonMap.queryIndirect P R.PHOTON_SEARCH_RADIUS
  nodes.foldl
    (fun acc ph =>
      let weight := max 0 (1 - glmDistance R.ext P ph.position * R.WEIGHT_FACTOR)
      let photonNormal := ph.primitive.getNormal P
      let f := (1 / (nodes.length : ℚ)) * max 0 (Vec3.dot photonNormal N) * weight
      acc + max 0 (Vec3.dot (-ph.direction) N) • ((f • ph.color) * mat.surfaceColor))
    0

/-! Concrete scenes, materials and oracles used to evaluate the embedded
code on explicit inputs (counterexamples and witnesses). -/

/-- A specular BRDF implementation that returns black; any fixed
implementation works for the concrete evaluations below. -/
def specZero : Vec3 → Vec3 → Vec3 → Vec3 → Vec3 := fun _ _ _ _ => 0

/-- An emissive white material (emission and surface colour both one). -/
def mEmissive : Material :=
  { surfaceColor := ⟨1, 1, 1⟩
    emissionColor := ⟨1, 1, 1⟩
    reflectivity := 0
    transparency := 0
    specularity := 0
    specularExponent := 0
    refractiveIndex := 1
    isEmissive := true
    isReflective := false
    isTransparent := false
    isSpecular := false
    calculateSpecularLighting := specZero }

/-- A plain white diffuse material. -/
def mDiffuse : Material :=
  { surfaceColor := ⟨1, 1, 1⟩
    emissionColor := ⟨0, 0, 0⟩
    reflectivity := 0
    transparency := 0
    specularity := 0
    specularExponent := 0
    refractiveIndex := 1
    isEmissive := false
    isReflective := false
    isTransparent := false
    isSpecular := false
    calculateSpecularLighting := specZero }

/-- A degenerate AABB at the origin. -/
def aabb0 : AABB := ⟨⟨0, 0, 0⟩, ⟨0, 0, 0⟩⟩

/-- A primitive whose intersection test always reports distance 4 and
whose normal is constantly `(0,0,1)` — the behaviour a unit sphere at the
origin shows to the rays used below. -/
def primHit4 : Primitive :=
  { rayIntersection := fun _ _ => some 4
    getNormal := fun _ => ⟨0, 0, 1⟩
    aabb := aabb0 }

/-- A primitive reporting constant distance 5, used for the tie-break
witness. -/
def primHit5 : Primitive :=
  { rayIntersection := fun _ _ => some 5
    getNormal := fun _ => ⟨0, 0, 1⟩
    aabb := aabb0 }

/-- A primitive whose normal map is the identity (a position-dependent
normal, as a sphere has); it reports no intersections. -/
def primNormId : Primitive :=
  { rayIntersection := fun _ _ => none
    getNormal := fun v => v
    aabb := aabb0 }

/-- Oracle whose square root is exact on the inputs arising below
(`sqrt 1 = 1`, `sqrt 0 = 0`) and whose Schlick term is never reached. -/
def extUnit : ExtOracle :=
  { sqrtq := fun q => if q = 1 then 1 else 0
    schlick := fun _ _ _ _ => 0 }

/-- The primary ray of the spec's concrete scenario 2: from `(0,0,5)`
toward `-Z`. -/
def exRay : Ray := ⟨⟨0, 0, 5⟩, ⟨0, 0, -1⟩⟩

/-- A scene holding one emissive render group (a stand-in for the single
emissive sphere of the spec's scenario 2). -/
def emissiveScene : Scene :=
  { renderGroups := [⟨mEmissive, [primHit4], ⟨0, 0, 2⟩⟩]
    emissiveRenderGroups := [0]
    axisAlignedBoundingBox := aabb0 }

/-- A scene holding one non-emissive diffuse render group and no emissive
groups. -/
def diffuseScene : Scene :=
  { renderGroups := [⟨mDiffuse, [primHit4], ⟨0, 0, 2⟩⟩]
    emissiveRenderGroups := []
    axisAlignedBoundingBox := aabb0 }

/-- A two-group scene whose two primitives intersect the ray at exactly
the same distance, exercising the tie-break. -/
def tieScene : Scene :=
  { renderGroups :=
      [⟨mDiffuse, [primHit5], ⟨0, 0, 2⟩⟩, ⟨mDiffuse, [primHit5], ⟨0, 0, 2⟩⟩]
    emissiveRenderGroups := []
    axisAlignedBoundingBox := aabb0 }

/-- A not-yet-initialised scene with one emissive and one diffuse group. -/
def preInitScene : Scene :=
  { renderGroups :=
      [⟨mEmissive, [primHit4], ⟨0, 0, 2⟩⟩, ⟨mDiffuse, [primHit4], ⟨0, 0, 2⟩⟩]
    emissiveRenderGroups := []
    axisAlignedBoundingBox := aabb0 }

/-- The Monte Carlo renderer over the emissive scene. -/
def mcEmissiveR : MonteCarloRenderer :=
  { scene := emissiveScene
    MAX_DEPTH := 5
    ext := extUnit
    cosineSample := fun _ => ⟨0, 0, 1⟩ }

/-- An empty photon map. -/
def photonMapEmpty : PhotonMap :=
  { queryIndirect := fun _ _ => []
    queryCaustic := fun _ _ => [] }

/-- A caustic photon sitting exactly at the shading point used below, with
unit energy, arriving straight down, landed on a surface facing `+Z`. -/
def causticPhoton : Photon :=
  { position := ⟨0, 0, 1⟩
    direction := ⟨0, 0, -1⟩
    color := ⟨1, 1, 1⟩
    primitive := primHit4 }

/-- A photon map holding one caustic photon and no indirect photons. -/
def photonMapCausticOnly : PhotonMap :=
  { queryIndirect := fun _ _ => []
    queryCaustic := fun _ _ => [causticPhoton] }

/-- An indirect photon at the origin that landed on a primitive with a
position-dependent normal. -/
def indirectPhoton : Photon :=
  { position := ⟨0, 0, 0⟩
    direction := ⟨0, 0, -1⟩
    color := ⟨1, 1, 1⟩
    primitive := primNormId }

/-- A photon map holding one indirect photon. -/
def photonMapIndirectOnly : PhotonMap :=
  { queryIndirect := fun _ _ => [indirectPhoton]
    queryCaustic := fun _ _ => [] }

/-- The photon-map renderer over the emissive scene with an empty photon
map. -/
def pmEmissiveR : PhotonMapRenderer :=
  { scene := emissiveScene
    MAX_DEPTH := 5
    PHOTON_SEARCH_RADIUS := 1
    WEIGHT_FACTOR := 0
    photonMap := photonMapEmpty
    ext := extUnit }

/-- The photon-map renderer over the diffuse scene with one caustic photon
available for gathering. -/
def pmCausticR : PhotonMapRenderer :=
  { scene := diffuseScene
    MAX_DEPTH := 5
    PHOTON_SEARCH_RADIUS := 1
    WEIGHT_FACTOR := 0
    photonMap := photonMapCausticOnly
    ext := extUnit }

/-- The photon-map renderer over the diffuse scene with one indirect
photon available for gathering. -/
def pmIndirectR : PhotonMapRenderer :=
  { scene := diffuseScene
    MAX_DEPTH := 5
    PHOTON_SEARCH_RADIUS := 1
    WEIGHT_FACTOR := 0
    photonMap := photonMapIndirectOnly
    ext := extUnit }

/-! Theorems. First, the analysis of the `Scene::RayCast` loop. -/

lemma bestDist_some (c : Nat × Nat × ℚ) : Scene.bestDist (some c) = c.2.2 := by
  rcases c with ⟨i, j, t⟩
  rfl

lemma scanPrims_eq_foldl (ray : Ray) (cull : Bool) (gi : Nat) :
    ∀ (ps : List Primitive) (j : Nat) (acc : Option (Nat × Nat × ℚ)),
      Scene.scanPrims ray cull gi j ps acc =
        List.foldl Scene.rcStep acc (primCandidates ray cull gi j ps) := by
  intro ps
  induction ps with
  | nil => intro j acc; rfl
  | cons p ps ih =>
    intro j acc
    show Scene.scanPrims ray cull gi (j + 1) ps _ = _
    rw [ih]
    cases h : p.rayIntersection ray cull with
    | none => simp [primCandidates, h]
    | some t => simp [primCandidates, h, Scene.rcStep, List.foldl_cons]

lemma scanGroups_eq_foldl (ray : Ray) (cull : Bool) :
    ∀ (gs : List RenderGroup) (i : Nat) (acc : Option (Nat × Nat × ℚ)),
      Scene.scanGroups ray cull i gs acc =
        List.foldl Scene.rcStep acc (groupCandidates ray cull i gs) := by
  intro gs
  induction gs with
  | nil => intro i acc; rfl
  | cons g gs ih =>
    intro i acc
    show Scene.scanGroups ray cull (i + 1) gs _ = _
    rw [ih, scanPrims_eq_foldl]
    simp [groupCandidates, List.foldl_append]

lemma rayCast_eq_foldl (s : Scene) (ray : Ray) (cull : Bool) :
    s.rayCast ray cull =
      match List.foldl Scene.rcStep none (groupCandidates ray cull 0 s.renderGroups) with
      | some (i, j, t) =>
        if t < FLT_MAX - FLT_EPSILON then some (i, j, t) else none
      | none => none := by
  show (match Scene.scanGroups ray cull 0 s.renderGroups none with
    | some (i, j, t) => if t < FLT_MAX - FLT_EPSILON then some (i, j, t) else none
    | none => none) = _
  rw [scanGroups_eq_foldl]

lemma foldl_rcStep_spec :
    ∀ (l : List (Nat × Nat × ℚ)) (acc : Option (Nat × Nat × ℚ)),
      (List.foldl Scene.rcStep acc l = acc ∧
        ∀ c ∈ l, Scene.bestDist acc ≤ c.2.2) ∨
      (∃ l₁ c l₂, l = l₁ ++ c :: l₂ ∧
        List.foldl Scene.rcStep acc l = some c ∧
        c.2.2 < Scene.bestDist acc ∧
        (∀ c' ∈ l₁, c.2.2 < c'.2.2) ∧
        (∀ c' ∈ l₂, c.2.2 ≤ c'.2.2)) := by
  intro l
  induction l with
  | nil => intro acc; left; exact ⟨rfl, by simp⟩
  | cons a l ih =>
    intro acc
    by_cases h : a.2.2 < Scene.bestDist acc
    · have hstep : Scene.rcStep acc a = some a := by simp [Scene.rcStep, h]
      have hfold : List.foldl Scene.rcStep acc (a :: l) =
          List.foldl Scene.rcStep (some a) l := by
        rw [List.foldl_cons, hstep]
      rcases ih (some a) with ⟨heq, hall⟩ | ⟨l₁, c, l₂, hl, heq, hlt, h₁, h₂⟩
      · right
        refine ⟨[], a, l, by simp, ?_, h, by simp, ?_⟩
        · rw [hfold, heq]
        · intro c' hc'
          have := hall c' hc'
          rwa [bestDist_some] at this
      · right
        refine ⟨a :: l₁, c, l₂, by rw [hl, List.cons_append], ?_, ?_, ?_, h₂⟩
        · rw [hfold, heq]
        · rw [bestDist_some] at hlt
          exact lt_trans hlt h
        · intro c' hc'
          rcases List.mem_cons.mp hc' with rfl | hc'
          · rw [bestDist_some] at hlt; exact hlt
          · exact h₁ c' hc'
    · have hstep : Scene.rcStep acc a = acc := by simp [Scene.rcStep, h]
      have hfold : List.foldl Scene.rcStep acc (a :: l) =
          List.foldl Scene.rcStep acc l := by
        rw [List.foldl_cons, hstep]
      rcases ih acc with ⟨heq, hall⟩ | ⟨l₁, c, l₂, hl, heq, hlt, h₁, h₂⟩
      · left
        refine ⟨by rw [hfold, heq], ?_⟩
        intro c' hc'
        rcases List.mem_cons.mp hc' with rfl | hc'
        · exact not_lt.mp h
        · exact hall c' hc'
      · right
        refine ⟨a :: l₁, c, l₂, by rw [hl, List.cons_append], by rw [hfold, heq], hlt, ?_,
          h₂⟩
        intro c' hc'
        rcases List.mem_cons.mp hc' with rfl | hc'
        · exact lt_of_lt_of_le hlt (not_lt.mp h)
        · exact h₁ c' hc'

lemma primCandidates_mem (ray : Ray) (cull : Bool) (gi : Nat) :
    ∀ (ps : List Primitive) (j : Nat) (c : Nat × Nat × ℚ),
      c ∈ primCandidates ray cull gi j ps ↔
        ∃ k p, ps.get? k = some p ∧
          p.rayIntersection ray cull = some c.2.2 ∧ c.1 = gi ∧ c.2.1 = j + k := by
  intro ps
  induction ps with
  | nil =>
    intro j c
    simp [primCandidates]
  | cons p ps ih =>
    intro j c
    constructor
    · intro hc
      rcases List.mem_append.mp hc with hc | hc
      · cases h : p.rayIntersection ray cull with
        | none => rw [h] at hc; simp at hc
        | some t =>
          rw [h] at hc
          simp only [List.mem_singleton] at hc
          subst hc
          exact ⟨0, p, rfl, h, rfl, rfl⟩
      · obtain ⟨k, q, hk, hq, h1, h2⟩ := (ih (j + 1) c).mp hc
        exact ⟨k + 1, q, hk, hq, h1, by omega⟩
    · rintro ⟨k, q, hk, hq, h1, h2⟩
      rcases c with ⟨ci, cj, ct⟩
      dsimp only at h1 h2 hq
      cases k with
      | zero =>
        simp only [List.get?_cons_zero, Option.some.injEq] at hk
        subst hk
        apply List.mem_append.mpr
        left
        rw [hq]
        have hcj : cj = j := by omega
        subst hcj
        subst h1
        exact List.mem_singleton.mpr rfl
      | succ k =>
        simp only [List.get?_cons_succ] at hk
        apply List.mem_append.mpr
        right
        exact (ih (j + 1) ⟨ci, cj, ct⟩).mpr ⟨k, q, hk, hq, h1, show cj = j + 1 + k by omega⟩

lemma groupCandidates_mem (ray : Ray) (cull : Bool) :
    ∀ (gs : List RenderGroup) (i : Nat) (c : Nat × Nat × ℚ),
      c ∈ groupCandidates ray cull i gs ↔
        ∃ k g p, gs.get? k = some g ∧ g.primitives.get? c.2.1 = some p ∧
          p.rayIntersection ray cull = some c.2.2 ∧ c.1 = i + k := by
  intro gs
  induction gs with
  | nil =>
    intro i c
    simp [groupCandidates]
  | cons g gs ih =>
    intro i c
    constructor
    · intro hc
      rcases List.mem_append.mp hc with hc | hc
      · obtain ⟨k, p, hk, hp, h1, h2⟩ := (primCandidates_mem ray cull i _ 0 c).mp hc
        refine ⟨0, g, p, rfl, ?_, hp, by omega⟩
        rw [h2]
        simpa using hk
      · obtain ⟨k, g', p, hk, hp, hi, h1⟩ := (ih (i + 1) c).mp hc
        exact ⟨k + 1, g', p, by simpa using hk, hp, hi, by omega⟩
    · rintro ⟨k, g', p, hk, hp, hi, h1⟩
      cases k with
      | zero =>
        simp only [List.get?_cons_zero, Option.some.injEq] at hk
        subst hk
        apply List.mem_append.mpr
        left
        refine (primCandidates_mem ray cull i _ 0 c).mpr ⟨c.2.1, p, hp, hi, by omega, by omega⟩
      | succ k =>
        simp only [List.get?_cons_succ] at hk
        apply List.mem_append.mpr
        right
        exact (ih (i + 1) c).mpr ⟨k, g', p, hk, hp, hi, by omega⟩

lemma hitsAt_iff_mem (s : Scene) (ray : Ray) (cull : Bool) (i j : Nat) (t : ℚ) :
    s.hitsAt ray cull i j t ↔ (i, j, t) ∈ groupCandidates ray cull 0 s.renderGroups := by
  rw [groupCandidates_mem]
  constructor
  · rintro ⟨g, p, hg, hp, hi⟩
    exact ⟨i, g, p, hg, hp, hi, by omega⟩
  · rintro ⟨k, g, p, hk, hp, hi, h1⟩
    simp only at h1
    refine ⟨g, p, ?_, hp, hi⟩
    rw [show i = k by omega]
    exact hk

lemma primCandidates_pairwise (ray : Ray) (cull : Bool) (gi : Nat) :
    ∀ (ps : List Primitive) (j : Nat),
      List.Pairwise lexLt (primCandidates ray cull gi j ps) := by
  intro ps
  induction ps with
  | nil => intro j; simp [primCandidates]
  | cons p ps ih =>
    intro j
    apply List.pairwise_append.mpr
    refine ⟨?_, ih (j + 1), ?_⟩
    · cases p.rayIntersection ray cull <;> simp
    · intro a ha b hb
      obtain ⟨k, q, hk, hq, h1, h2⟩ := (primCandidates_mem ray cull gi ps (j + 1) b).mp hb
      cases h : p.rayIntersection ray cull with
      | none => rw [h] at ha; simp at ha
      | some t =>
        rw [h] at ha
        simp only [List.mem_singleton] at ha
        subst ha
        right
        exact ⟨h1.symm, show j < b.2.1 by omega⟩

lemma groupCandidates_pairwise (ray : Ray) (cull : Bool) :
    ∀ (gs : List RenderGroup) (i : Nat),
      List.Pairwise lexLt (groupCandidates ray cull i gs) := by
  intro gs
  induction gs with
  | nil => intro i; simp [groupCandidates]
  | cons g gs ih =>
    intro i
    apply List.pairwise_append.mpr
    refine ⟨primCandidates_pairwise ray cull i _ 0, ih (i + 1), ?_⟩
    intro a ha b hb
    obtain ⟨_, _, _, _, ha1, _⟩ := (primCandidates_mem ray cull i _ 0 a).mp ha
    obtain ⟨k, _, _, _, _, hb1⟩ := (groupCandidates_mem ray cull gs (i + 1) b).mp hb
    left
    omega

lemma FLT_EPSILON_pos : (0 : ℚ) < FLT_EPSILON := by norm_num [FLT_EPSILON]

/-- Claim C1: for every ray and every scene, `Scene::RayCast` returns the
hit whose distance `t` is the minimum positive intersection distance over
all primitives of all render groups, with a deterministic tie-break by
(group index, primitive index) on exact `t` equality; when no primitive
intersects the ray (in particular for an empty scene) it returns no hit.
The hypothesis is the primitive contract asserted by the source: reported
distances are positive (above `FLT_EPSILON`, so in particular below the
`FLT_MAX` sentinel). -/
theorem rayCast_is_nearest_hit (s : Scene) (ray : Ray) (cull : Bool)
    (hadm : ∀ i j t, s.hitsAt ray cull i j t →
      0 < t ∧ t < FLT_MAX - FLT_EPSILON) :
    (s.rayCast ray cull = none ↔ ∀ i j t, ¬ s.hitsAt ray cull i j t) ∧
    (∀ g p t, s.rayCast ray cull = some (g, p, t) →
      s.hitsAt ray cull g p t ∧ 0 < t ∧
      (∀ i j u, s.hitsAt ray cull i j u → t ≤ u) ∧
      (∀ i j, s.hitsAt ray cull i j t → g < i ∨ (g = i ∧ p ≤ j))) := by
  have hrw := rayCast_eq_foldl s ray cull
  rcases foldl_rcStep_spec (groupCandidates ray cull 0 s.renderGroups) none with
    ⟨heq, hall⟩ | ⟨l₁, c, l₂, hl, heq, hlt, h₁, h₂⟩
  · have hnone : s.rayCast ray cull = none := by rw [hrw, heq]
    have hnohit : ∀ i j t, ¬ s.hitsAt ray cull i j t := by
      intro i j t hhit
      have hmem := (hitsAt_iff_mem s ray cull i j t).mp hhit
      have hge := hall _ hmem
      have hb := (hadm i j t hhit).2
      simp only [Scene.bestDist] at hge
      have := FLT_EPSILON_pos
      linarith
    refine ⟨by simp [hnone, hnohit], ?_⟩
    intro g p t hsome
    rw [hnone] at hsome
    exact absurd hsome (by simp)
  · rcases c with ⟨ci, cj, ct⟩
    have hcmem : (ci, cj, ct) ∈ groupCandidates ray cull 0 s.renderGroups := by
      rw [hl]
      exact List.mem_append.mpr (Or.inr (List.mem_cons_self _ _))
    have hchit : s.hitsAt ray cull ci cj ct := (hitsAt_iff_mem s ray cull ci cj ct).mpr hcmem
    have hct := hadm ci cj ct hchit
    have hsome : s.rayCast ray cull = some (ci, cj, ct) := by
      rw [hrw, heq]
      simp [hct.2]
    refine ⟨?_, ?_⟩
    · rw [hsome]
      simp only [reduceCtorEq, false_iff, not_forall]
      push_neg
      exact ⟨ci, cj, ct, hchit⟩
    · intro g p t ht
      rw [hsome, Option.some.injEq] at ht
      have hg : g = ci ∧ p = cj ∧ t = ct := by simpa [Prod.ext_iff] using ht.symm
      obtain ⟨rfl, rfl, rfl⟩ := hg
      refine ⟨hchit, hct.1, ?_, ?_⟩
      · intro i j u hu
        have hmem := (hitsAt_iff_mem s ray cull i j u).mp hu
        rw [hl] at hmem
        rcases List.mem_append.mp hmem with hm | hm
        · exact le_of_lt (h₁ _ hm)
        · rcases List.mem_cons.mp hm with he | hm
          · have hu2 : g = i ∧ p = j ∧ t = u := by simpa [Prod.ext_iff] using he.symm
            exact le_of_eq hu2.2.2
          · exact h₂ _ hm
      · intro i j hu
        have hmem := (hitsAt_iff_mem s ray cull i j t).mp hu
        rw [hl] at hmem
        rcases List.mem_append.mp hmem with hm | hm
        · exact absurd (h₁ _ hm) (lt_irrefl t)
        · rcases List.mem_cons.mp hm with he | hm
          · have hij : g = i ∧ p = j := by
              have := he.symm
              simp only [Prod.ext_iff] at this
              exact ⟨this.1, this.2.1⟩
            right
            exact ⟨hij.1, le_of_eq hij.2⟩
          · have hpw := groupCandidates_pairwise ray cull s.renderGroups 0
            rw [hl] at hpw
            have h3 := (List.pairwise_append.mp hpw).2.1
            have h4 := (List.pairwise_cons.mp h3).1 _ hm
            rcases h4 with h4 | ⟨h4a, h4b⟩
            · left
              exact h4
            · right
              exact ⟨h4a, le_of_lt h4b⟩

lemma tieScene_adm : ∀ i j t, tieScene.hitsAt exRay false i j t →
    0 < t ∧ t < FLT_MAX - FLT_EPSILON := by
  rintro i j t ⟨g, p, hg, hp, hi⟩
  have hgval : g = ⟨mDiffuse, [primHit5], ⟨0, 0, 2⟩⟩ := by
    rcases i with _ | _ | i <;> simp_all [tieScene]
  subst hgval
  have hpval : p = primHit5 := by
    rcases j with _ | j <;> simp_all
  subst hpval
  have ht : t = 5 := by
    simpa [primHit5] using hi.symm
  subst ht
  norm_num [FLT_MAX, FLT_EPSILON]

/-- Witness for C1: on a concrete two-group scene whose two primitives both
hit at distance 5, `rayCast` returns the hit of the first group and first
primitive, the distance is positive and minimal, and the tie-break prefers
the lower (group, primitive) index. -/
theorem rayCast_is_nearest_hit_witness :
    tieScene.rayCast exRay false = some (0, 0, 5) ∧
    tieScene.hitsAt exRay false 1 0 5 ∧
    (0 : ℚ) < 5 ∧
    (∀ i j u, tieScene.hitsAt exRay false i j u → (5 : ℚ) ≤ u) ∧
    (∀ i j, tieScene.hitsAt exRay false i j 5 → 0 < i ∨ (0 = i ∧ 0 ≤ j)) := by
  have happ := rayCast_is_nearest_hit tieScene exRay false tieScene_adm
  have hrc : tieScene.rayCast exRay false = some (0, 0, 5) := by
    norm_num [Scene.rayCast, Scene.scanGroups, Scene.scanPrims, Scene.bestDist, Scene.rcStep,
      tieScene, primHit5, mDiffuse, FLT_MAX, FLT_EPSILON]
  have hmain := happ.2 0 0 5 hrc
  exact ⟨hrc, ⟨⟨mDiffuse, [primHit5], ⟨0, 0, 2⟩⟩, primHit5, rfl, rfl, rfl⟩,
    hmain.2.1, hmain.2.2.1, hmain.2.2.2⟩

/-! Scene initialisation: the emissive set and idempotence. -/

lemma emissiveIndicesFrom_mem :
    ∀ (gs : List RenderGroup) (i0 i : Nat),
      i ∈ Scene.emissiveIndicesFrom i0 gs ↔
        ∃ k g, gs.get? k = some g ∧ g.material.isEmissive = true ∧ i = i0 + k := by
  intro gs
  induction gs with
  | nil => intro i0 i; simp [Scene.emissiveIndicesFrom]
  | cons g gs ih =>
    intro i0 i
    constructor
    · intro hi
      rcases List.mem_append.mp hi with hi | hi
      · by_cases h : g.material.isEmissive
        · simp only [h, if_true, List.mem_singleton] at hi
          exact ⟨0, g, rfl, h, by omega⟩
        · simp [h] at hi
      · obtain ⟨k, g', hk, hg', hik⟩ := (ih (i0 + 1) i).mp hi
        exact ⟨k + 1, g', hk, hg', by omega⟩
    · rintro ⟨k, g', hk, hg', rfl⟩
      cases k with
      | zero =>
        simp only [List.get?_cons_zero, Option.some.injEq] at hk
        subst hk
        apply List.mem_append.mpr
        left
        simp [hg']
      | succ k =>
        simp only [List.get?_cons_succ] at hk
        apply List.mem_append.mpr
        right
        exact (ih (i0 + 1) _).mpr ⟨k, g', hk, hg', by omega⟩

/-- Claim C7: after `initialize()` returns (from the freshly constructed
state, whose emissive list is empty), a render group is in
`emissiveRenderGroups` if and only if its material is emissive; this holds
for every render group of the scene, whose group list `initialize` leaves
untouched. -/
theorem initScene_emissive_set_consistent (s : Scene)
    (hfresh : s.emissiveRenderGroups = []) :
    (s.initScene).renderGroups = s.renderGroups ∧
    ∀ i g, (s.initScene).renderGroups.get? i = some g →
      (i ∈ (s.initScene).emissiveRenderGroups ↔ g.material.isEmissive = true) := by
  refine ⟨rfl, ?_⟩
  intro i g hg
  show i ∈ s.emissiveRenderGroups ++ Scene.emissiveIndicesFrom 0 s.renderGroups ↔ _
  rw [hfresh, List.nil_append, emissiveIndicesFrom_mem]
  constructor
  · rintro ⟨k, g', hk, hg', hik⟩
    have hki : k = i := by omega
    subst hki
    have hg2 : s.renderGroups.get? k = some g := hg
    rw [hg2] at hk
    cases hk
    exact hg'
  · intro hgE
    exact ⟨i, g, hg, hgE, by omega⟩

/-- Witness for C7: on a concrete fresh two-group scene (first group
emissive, second not), after initialisation index 0 is in the emissive list
and index 1 is not. -/
theorem initScene_emissive_set_consistent_witness :
    (0 ∈ (preInitScene.initScene).emissiveRenderGroups ↔ True) ∧
    (1 ∈ (preInitScene.initScene).emissiveRenderGroups ↔ False) := by
  have h := initScene_emissive_set_consistent preInitScene rfl
  constructor
  · rw [h.2 0 ⟨mEmissive, [primHit4], ⟨0, 0, 2⟩⟩ rfl]
    simp [mEmissive]
  · rw [h.2 1 ⟨mDiffuse, [primHit4], ⟨0, 0, 2⟩⟩ rfl]
    simp [mDiffuse]

/-- Counterexample to claim C8: on a concrete fresh scene whose first
group is emissive, calling `initialize()` twice does not yield the derived
state of calling it once — the emissive list is `[0]` after one call but
`[0, 0]` after two, because the source appends to the vector without
clearing it. -/
theorem initScene_not_idempotent_cex :
    (preInitScene.initScene).emissiveRenderGroups = [0] ∧
    (preInitScene.initScene.initScene).emissiveRenderGroups = [0, 0] ∧
    ([0, 0] : List Nat) ≠ [0] := by
  refine ⟨?_, ?_, by simp⟩
  · simp [preInitScene, Scene.initScene, Scene.emissiveIndicesFrom, mEmissive, mDiffuse]
  · simp [preInitScene, Scene.initScene, Scene.emissiveIndicesFrom, mEmissive, mDiffuse]

/-- Claim C8 as amended: a second `initialize()` recomputes the scene AABB
identically (the group list is unchanged), but appends the emissive indices
a second time, so the emissive list after two calls is the one-call list
concatenated with itself; the derived state is unchanged only when no
group is emissive. -/
theorem initScene_twice (s : Scene) (hfresh : s.emissiveRenderGroups = []) :
    (s.initScene.initScene).axisAlignedBoundingBox =
      (s.initScene).axisAlignedBoundingBox ∧
    (s.initScene.initScene).renderGroups = (s.initScene).renderGroups ∧
    (s.initScene.initScene).emissiveRenderGroups =
      (s.initScene).emissiveRenderGroups ++ (s.initScene).emissiveRenderGroups := by
  refine ⟨rfl, rfl, ?_⟩
  show ((s.emissiveRenderGroups ++ Scene.emissiveIndicesFrom 0 s.renderGroups) ++
      Scene.emissiveIndicesFrom 0 s.renderGroups) = _
  rw [hfresh]
  simp [Scene.initScene, hfresh]

/-- Witness for the amended C8: the double initialisation of the concrete
two-group scene duplicates the emissive list and keeps the AABB. -/
theorem initScene_twice_witness :
    (preInitScene.initScene.initScene).axisAlignedBoundingBox =
      (preInitScene.initScene).axisAlignedBoundingBox ∧
    (preInitScene.initScene.initScene).emissiveRenderGroups =
      (preInitScene.initScene).emissiveRenderGroups ++
        (preInitScene.initScene).emissiveRenderGroups := by
  have h := initScene_twice preInitScene rfl
  exact ⟨h.1, h.2.2⟩

/-! Unfolding lemmas for the vector instances, used to evaluate the
embedded code on concrete inputs. -/

@[simp]
lemma Vec3.add_def (a b : Vec3) : a + b = ⟨a.x + b.x, a.y + b.y, a.z + b.z⟩ := rfl

@[simp]
lemma Vec3.sub_def (a b : Vec3) : a - b = ⟨a.x - b.x, a.y - b.y, a.z - b.z⟩ := rfl

@[simp]
lemma Vec3.neg_def (a : Vec3) : -a = ⟨-a.x, -a.y, -a.z⟩ := rfl

@[simp]
lemma Vec3.hmul_def (a b : Vec3) : a * b = ⟨a.x * b.x, a.y * b.y, a.z * b.z⟩ := rfl

@[simp]
lemma Vec3.smul_def (c : ℚ) (a : Vec3) : c • a = ⟨c * a.x, c * a.y, c * a.z⟩ := rfl

@[simp]
lemma Vec3.zero_x : (0 : Vec3).x = 0 := rfl

@[simp]
lemma Vec3.zero_y : (0 : Vec3).y = 0 := rfl

@[simp]
lemma Vec3.zero_z : (0 : Vec3).z = 0 := rfl

lemma Vec3.zero_def : (0 : Vec3) = ⟨0, 0, 0⟩ := rfl

@[simp]
lemma Vec3.mk_eq_zero (a b c : ℚ) :
    (⟨a, b, c⟩ : Vec3) = 0 ↔ a = 0 ∧ b = 0 ∧ c = 0 := by
  rw [Vec3.zero_def]
  exact Vec3.mk.injEq .. ▸ Iff.rfl

/-! One-step unfoldings of the two recursive integrators. -/

lemma mcTraceRay_succ (R : MonteCarloRenderer) (ray : Ray) (depth : Nat)
    (h : depth < R.MAX_DEPTH) :
    R.traceRay ray depth = mcBody R (fun r => R.traceRay r (depth + 1)) depth ray := by
  unfold MonteCarloRenderer.traceRay
  have h0 : R.MAX_DEPTH - depth = (R.MAX_DEPTH - (depth + 1)) + 1 := by omega
  rw [h0]
  have hne : (depth == R.MAX_DEPTH) = false := by
    simp only [beq_eq_false_iff_ne, ne_eq]
    omega
  simp only [mcTraceRayF, hne, Bool.false_eq_true, if_false]

lemma mcTraceRay_maxDepth (R : MonteCarloRenderer) (ray : Ray) (depth : Nat)
    (h : R.MAX_DEPTH ≤ depth) :
    R.traceRay ray depth = 0 := by
  unfold MonteCarloRenderer.traceRay
  have h0 : R.MAX_DEPTH - depth = 0 := by omega
  rw [h0]
  rfl

lemma pmTraceRay_succ (R : PhotonMapRenderer) (ray : Ray) (depth : Nat)
    (h : depth < R.MAX_DEPTH) :
    R.traceRay ray depth = pmBody R (fun r => R.traceRay r (depth + 1)) depth ray := by
  unfold PhotonMapRenderer.traceRay
  have h0 : R.MAX_DEPTH - depth = (R.MAX_DEPTH - (depth + 1)) + 1 := by omega
  rw [h0]
  have hne : (depth == R.MAX_DEPTH) = false := by
    simp only [beq_eq_false_iff_ne, ne_eq]
    omega
  simp only [pmTraceRayF, hne, Bool.false_eq_true, if_false]

lemma pmTraceRay_maxDepth (R : PhotonMapRenderer) (ray : Ray) (depth : Nat)
    (h : R.MAX_DEPTH ≤ depth) :
    R.traceRay ray depth = 0 := by
  unfold PhotonMapRenderer.traceRay
  have h0 : R.MAX_DEPTH - depth = 0 := by omega
  rw [h0]
  rfl

/-! Branch-level unfoldings of the integrator bodies. -/

lemma mcBody_emissive (R : MonteCarloRenderer) (recurse : Ray → Vec3) (depth : Nat)
    (inRay : Ray) (gi pi : Nat) (t : ℚ) (group : RenderGroup) (prim : Primitive)
    (hcast : R.scene.rayCast
      ⟨inRay.origin + (0.001 : ℚ) • inRay.direction, inRay.direction⟩ = some (gi, pi, t))
    (hgroup : R.scene.renderGroups.get? gi = some group)
    (hprim : group.primitives.get? pi = some prim)
    (hfront : ¬ Vec3.dot (-inRay.direction)
      (prim.getNormal ((inRay.origin + (0.001 : ℚ) • inRay.direction) + t • inRay.direction))
        < FLT_EPSILON)
    (hemiss : group.material.isEmissive = true) :
    mcBody R recurse depth inRay =
      (if depth ≥ 1 then
        Vec3.dot (-inRay.direction)
          (prim.getNormal
            ((inRay.origin + (0.001 : ℚ) • inRay.direction) + t • inRay.direction))
      else 1) • group.material.emissionColor +
      group.material.calculateDiffuseLighting
        (-(prim.getNormal
          ((inRay.origin + (0.001 : ℚ) • inRay.direction) + t • inRay.direction)))
        (-inRay.direction)
        (prim.getNormal
          ((inRay.origin + (0.001 : ℚ) • inRay.direction) + t • inRay.direction))
        group.material.emissionColor := by
  unfold mcBody
  simp only [hcast, hgroup, hprim, hemiss, if_false, if_true, hfront]

lemma mcBody_nonEmissive (R : MonteCarloRenderer) (recurse : Ray → Vec3) (depth : Nat)
    (inRay : Ray) (gi pi : Nat) (t : ℚ) (group : RenderGroup) (prim : Primitive)
    (hcast : R.scene.rayCast
      ⟨inRay.origin + (0.001 : ℚ) • inRay.direction, inRay.direction⟩ = some (gi, pi, t))
    (hgroup : R.scene.renderGroups.get? gi = some group)
    (hprim : group.primitives.get? pi = some prim)
    (hfront : ¬ Vec3.dot (-inRay.direction)
      (prim.getNormal ((inRay.origin + (0.001 : ℚ) • inRay.direction) + t • inRay.direction))
        < FLT_EPSILON)
    (hemiss : group.material.isEmissive = false) :
    mcBody R recurse depth inRay =
      mcHitAccum R recurse ⟨inRay.origin + (0.001 : ℚ) • inRay.direction, inRay.direction⟩
        gi ((inRay.origin + (0.001 : ℚ) • inRay.direction) + t • inRay.direction)
        (prim.getNormal ((inRay.origin + (0.001 : ℚ) • inRay.direction) + t • inRay.direction))
        group.material := by
  unfold mcBody
  simp only [hcast, hgroup, hprim, hemiss, if_false, if_true, hfront, Bool.false_eq_true]

lemma pmBody_emissive (R : PhotonMapRenderer) (recurse : Ray → Vec3) (depth : Nat)
    (ray : Ray) (gi pi : Nat) (t : ℚ) (group : RenderGroup) (prim : Primitive)
    (hlen : ¬ (glmLength R.ext ray.direction < 1 - 10 * FLT_EPSILON ∨
      glmLength R.ext ray.direction > 1 + 10 * FLT_EPSILON))
    (hcast : R.scene.rayCast ray = some (gi, pi, t))
    (hgroup : R.scene.renderGroups.get? gi = some group)
    (hprim : group.primitives.get? pi = some prim)
    (hfront : ¬ Vec3.dot (-ray.direction)
      (prim.getNormal (ray.origin + t • ray.direction)) < FLT_EPSILON)
    (hemiss : group.material.isEmissive = true) :
    pmBody R recurse depth ray =
      (if depth ≥ 1 then
        Vec3.dot (-ray.direction) (prim.getNormal (ray.origin + t • ray.direction))
      else 1) • group.material.emissionColor := by
  unfold pmBody
  simp only [hcast, hgroup, hprim, hemiss, if_false, if_true, hfront, hlen]

lemma pmBody_nonEmissive (R : PhotonMapRenderer) (recurse : Ray → Vec3) (depth : Nat)
    (ray : Ray) (gi pi : Nat) (t : ℚ) (group : RenderGroup) (prim : Primitive)
    (hlen : ¬ (glmLength R.ext ray.direction < 1 - 10 * FLT_EPSILON ∨
      glmLength R.ext ray.direction > 1 + 10 * FLT_EPSILON))
    (hcast : R.scene.rayCast ray = some (gi, pi, t))
    (hgroup : R.scene.renderGroups.get? gi = some group)
    (hprim : group.primitives.get? pi = some prim)
    (hfront : ¬ Vec3.dot (-ray.direction)
      (prim.getNormal (ray.origin + t • ray.direction)) < FLT_EPSILON)
    (hemiss : group.material.isEmissive = false) :
    pmBody R recurse depth ray =
      (0.95 : ℚ) • pmHitAccum R recurse ray gi (ray.origin + t • ray.direction)
        (prim.getNormal (ray.origin + t • ray.direction)) group.material := by
  unfold pmBody
  simp only [hcast, hgroup, hprim, hemiss, if_false, if_true, hfront, hlen,
    Bool.false_eq_true]

/-- Claim C9: for every ray and starting depth in `[0, MAX_DEPTH]`, the
Monte Carlo trace satisfies the unfolding equation in which the recursion
stops with black exactly when the depth equals `MAX_DEPTH`, and otherwise
runs the (non-recursive) body whose every recursive call receives
`depth + 1`; the embedding `MonteCarloRenderer.traceRay` is a total
function, so the recursion terminates with no Russian roulette. -/
theorem mcTraceRay_hard_depth_limit (R : MonteCarloRenderer) (ray : Ray)
    (depth : Nat) (h : depth ≤ R.MAX_DEPTH) :
    R.traceRay ray depth =
      if depth = R.MAX_DEPTH then 0
      else mcBody R (fun r => R.traceRay r (depth + 1)) depth ray := by
  by_cases hd : depth = R.MAX_DEPTH
  · rw [if_pos hd]
    exact mcTraceRay_maxDepth R ray depth (le_of_eq hd.symm)
  · rw [if_neg hd]
    exact mcTraceRay_succ R ray depth (by omega)

/-- Witness for C9 at a concrete renderer: at depth 0 (below the cap 5)
the trace runs the body with recursion depth 1; at the cap it is black. -/
theorem mcTraceRay_hard_depth_limit_witness :
    (mcEmissiveR.traceRay exRay 0 =
      mcBody mcEmissiveR (fun r => mcEmissiveR.traceRay r 1) 0 exRay) ∧
    mcEmissiveR.traceRay exRay 5 = 0 := by
  constructor
  · have h := mcTraceRay_hard_depth_limit mcEmissiveR exRay 0 (by norm_num [mcEmissiveR])
    rwa [if_neg (by norm_num [mcEmissiveR])] at h
  · have h := mcTraceRay_hard_depth_limit mcEmissiveR exRay 5 (by norm_num [mcEmissiveR])
    rwa [if_pos (by norm_num [mcEmissiveR])] at h

/-- Counterexample to claim C2: on the concrete scene with one emissive
group (emission `(1,1,1)`, surface colour `(1,1,1)`) and the primary ray
from `(0,0,5)` toward `-Z`, the Monte Carlo trace at depth 0 returns
`(2,2,2)`, not the raw emission colour `(1,1,1)`: line 62 of
MonteCarloRenderer.cpp adds a diffuse self term to the emissive branch. -/
theorem mcTraceRay_emissive_extra_term_cex :
    mcEmissiveR.traceRay exRay 0 = ⟨2, 2, 2⟩ ∧
    mEmissive.emissionColor = ⟨1, 1, 1⟩ ∧
    mcEmissiveR.traceRay exRay 0 ≠ mEmissive.emissionColor := by
  have hcast : mcEmissiveR.scene.rayCast
      ⟨exRay.origin + (0.001 : ℚ) • exRay.direction, exRay.direction⟩ = some (0, 0, 4) := by
    norm_num [Scene.rayCast, Scene.scanGroups, Scene.scanPrims, Scene.bestDist,
      Scene.rcStep, mcEmissiveR, emissiveScene, primHit4, exRay, FLT_MAX, FLT_EPSILON]
  have hfront : ¬ Vec3.dot (-exRay.direction)
      (primHit4.getNormal
        ((exRay.origin + (0.001 : ℚ) • exRay.direction) + (4 : ℚ) • exRay.direction))
        < FLT_EPSILON := by
    norm_num [primHit4, exRay, Vec3.dot, FLT_EPSILON]
  have h1 : mcEmissiveR.traceRay exRay 0 = ⟨2, 2, 2⟩ := by
    rw [mcTraceRay_succ mcEmissiveR exRay 0 (by norm_num [mcEmissiveR])]
    rw [mcBody_emissive mcEmissiveR _ 0 exRay 0 0 4 ⟨mEmissive, [primHit4], ⟨0, 0, 2⟩⟩
      primHit4 hcast rfl rfl hfront rfl]
    norm_num [primHit4, exRay, mEmissive, Material.calculateDiffuseLighting, Vec3.dot]
  refine ⟨h1, rfl, ?_⟩
  rw [h1]
  intro hcontra
  have := congrArg Vec3.x hcontra
  norm_num [mEmissive] at this

/-- Claim C2 as amended: when the Monte Carlo trace hits an emissive,
front-facing surface, the returned radiance is the emission colour weighted
by `dot(-dir, N)` for `depth ≥ 1` (unweighted for the primary ray `depth = 0`)
PLUS the diffuse self term
`diffuse_brdf(-N, -dir, N, emission_colour) = |N|^2 * emission * surface_colour`
that line 62 of MonteCarloRenderer.cpp adds. -/
theorem mcTraceRay_emissive_weighted_plus_self (R : MonteCarloRenderer)
    (ray : Ray) (depth : Nat) (gi pi : Nat) (t : ℚ)
    (group : RenderGroup) (prim : Primitive)
    (hdepth : depth < R.MAX_DEPTH)
    (hcast : R.scene.rayCast
      ⟨ray.origin + (0.001 : ℚ) • ray.direction, ray.direction⟩ = some (gi, pi, t))
    (hgroup : R.scene.renderGroups.get? gi = some group)
    (hprim : group.primitives.get? pi = some prim)
    (hfront : ¬ Vec3.dot (-ray.direction)
      (prim.getNormal ((ray.origin + (0.001 : ℚ) • ray.direction) + t • ray.direction))
        < FLT_EPSILON)
    (hemiss : group.material.isEmissive = true) :
    R.traceRay ray depth =
      (if depth ≥ 1 then
        Vec3.dot (-ray.direction)
          (prim.getNormal
            ((ray.origin + (0.001 : ℚ) • ray.direction) + t • ray.direction))
      else 1) • group.material.emissionColor +
      group.material.calculateDiffuseLighting
        (-(prim.getNormal
          ((ray.origin + (0.001 : ℚ) • ray.direction) + t • ray.direction)))
        (-ray.direction)
        (prim.getNormal
          ((ray.origin + (0.001 : ℚ) • ray.direction) + t • ray.direction))
        group.material.emissionColor := by
  rw [mcTraceRay_succ R ray depth hdepth]
  exact mcBody_emissive R _ depth ray gi pi t group prim hcast hgroup hprim hfront hemiss

/-- Witness for the amended C2 on the concrete emissive scene: the
primary-ray result is the raw emission plus the self term, i.e. `(2,2,2)`. -/
theorem mcTraceRay_emissive_weighted_plus_self_witness :
    mcEmissiveR.traceRay exRay 0 =
      (1 : ℚ) • mEmissive.emissionColor +
        mEmissive.calculateDiffuseLighting (-(⟨0, 0, 1⟩ : Vec3)) (-exRay.direction)
          ⟨0, 0, 1⟩ mEmissive.emissionColor := by
  have hcast : mcEmissiveR.scene.rayCast
      ⟨exRay.origin + (0.001 : ℚ) • exRay.direction, exRay.direction⟩ = some (0, 0, 4) := by
    norm_num [Scene.rayCast, Scene.scanGroups, Scene.scanPrims, Scene.bestDist,
      Scene.rcStep, mcEmissiveR, emissiveScene, primHit4, exRay, FLT_MAX, FLT_EPSILON]
  have hfront : ¬ Vec3.dot (-exRay.direction)
      (primHit4.getNormal
        ((exRay.origin + (0.001 : ℚ) • exRay.direction) + (4 : ℚ) • exRay.direction))
        < FLT_EPSILON := by
    norm_num [primHit4, exRay, Vec3.dot, FLT_EPSILON]
  have h := mcTraceRay_emissive_weighted_plus_self mcEmissiveR exRay 0 0 0 4
    ⟨mEmissive, [primHit4], ⟨0, 0, 2⟩⟩ primHit4 (by norm_num [mcEmissiveR])
    hcast rfl rfl hfront rfl
  rw [h]
  norm_num [primHit4, exRay, mEmissive, Material.calculateDiffuseLighting, Vec3.dot]

/-- Counterexample to claim C5: on the concrete scene with one emissive
group, the photon-map trace at depth 0 hits the scene and returns the raw
emission `(1,1,1)` directly from the emissive branch (line 66), NOT `0.95`
times the accumulated direct / indirect / refracted / reflective
contributions — those all evaluate to zero here, so the claimed value
would be zero. -/
theorem pmTraceRay_emissive_unscaled_cex :
    pmEmissiveR.traceRay exRay 0 = ⟨1, 1, 1⟩ ∧
    pmEmissiveR.scene.rayCast exRay = some (0, 0, 4) ∧
    (0.95 : ℚ) • pmHitAccum pmEmissiveR (fun r => pmEmissiveR.traceRay r 1) exRay 0
      ⟨0, 0, 1⟩ ⟨0, 0, 1⟩ mEmissive = 0 ∧
    (⟨1, 1, 1⟩ : Vec3) ≠ (0 : Vec3) := by
  have hcast : pmEmissiveR.scene.rayCast exRay = some (0, 0, 4) := by
    norm_num [Scene.rayCast, Scene.scanGroups, Scene.scanPrims, Scene.bestDist,
      Scene.rcStep, pmEmissiveR, emissiveScene, primHit4, exRay, FLT_MAX, FLT_EPSILON]
  have hlen : ¬ (glmLength pmEmissiveR.ext exRay.direction < 1 - 10 * FLT_EPSILON ∨
      glmLength pmEmissiveR.ext exRay.direction > 1 + 10 * FLT_EPSILON) := by
    norm_num [glmLength, pmEmissiveR, extUnit, exRay, Vec3.dot, FLT_EPSILON]
  have hfront : ¬ Vec3.dot (-exRay.direction)
      (primHit4.getNormal (exRay.origin + (4 : ℚ) • exRay.direction)) < FLT_EPSILON := by
    norm_num [primHit4, exRay, Vec3.dot, FLT_EPSILON]
  refine ⟨?_, hcast, ?_, ?_⟩
  · rw [pmTraceRay_succ pmEmissiveR exRay 0 (by norm_num [pmEmissiveR])]
    rw [pmBody_emissive pmEmissiveR _ 0 exRay 0 0 4 ⟨mEmissive, [primHit4], ⟨0, 0, 2⟩⟩
      primHit4 hlen hcast rfl rfl hfront rfl]
    norm_num [primHit4, exRay, mEmissive]
  · norm_num [pmHitAccum, pmDirectLight, pmIndirectGather, Scene.rayCast,
      Scene.scanGroups, Scene.scanPrims, Scene.bestDist, Scene.rcStep, pmEmissiveR,
      emissiveScene, mEmissive, primHit4, photonMapEmpty, exRay, extUnit, glmNormalize,
      glmLength, glmDistance, Vec3.dot, Material.calculateDiffuseLighting,
      FLT_MAX, FLT_EPSILON]
  · intro hcontra
    have := congrArg Vec3.x hcontra
    norm_num at this

/-- Claim C5 as amended: the `0.95` damping applies exactly to the returns
that reach the accumulation path — for every hit on a non-emissive,
front-facing surface the trace returns `0.95` times the accumulated
contributions, while a hit on an emissive surface returns the (possibly
dot-weighted) emission colour unscaled. -/
theorem pmTraceRay_scaled_on_accumulation_path (R : PhotonMapRenderer)
    (ray : Ray) (depth : Nat) (gi pi : Nat) (t : ℚ)
    (group : RenderGroup) (prim : Primitive)
    (hdepth : depth < R.MAX_DEPTH)
    (hlen : ¬ (glmLength R.ext ray.direction < 1 - 10 * FLT_EPSILON ∨
      glmLength R.ext ray.direction > 1 + 10 * FLT_EPSILON))
    (hcast : R.scene.rayCast ray = some (gi, pi, t))
    (hgroup : R.scene.renderGroups.get? gi = some group)
    (hprim : group.primitives.get? pi = some prim)
    (hfront : ¬ Vec3.dot (-ray.direction)
      (prim.getNormal (ray.origin + t • ray.direction)) < FLT_EPSILON) :
    (group.material.isEmissive = false →
      R.traceRay ray depth =
        (0.95 : ℚ) • pmHitAccum R (fun r => R.traceRay r (depth + 1)) ray gi
          (ray.origin + t • ray.direction)
          (prim.getNormal (ray.origin + t • ray.direction)) group.material) ∧
    (group.material.isEmissive = true →
      R.traceRay ray depth =
        (if depth ≥ 1 then
          Vec3.dot (-ray.direction) (prim.getNormal (ray.origin + t • ray.direction))
        else 1) • group.material.emissionColor) := by
  constructor
  · intro hemiss
    rw [pmTraceRay_succ R ray depth hdepth]
    exact pmBody_nonEmissive R _ depth ray gi pi t group prim hlen hcast hgroup hprim
      hfront hemiss
  · intro hemiss
    rw [pmTraceRay_succ R ray depth hdepth]
    exact pmBody_emissive R _ depth ray gi pi t group prim hlen hcast hgroup hprim
      hfront hemiss

/-- Witness for the amended C5 on the concrete diffuse scene: the
non-emissive front-facing hit returns `0.95` times the accumulator. -/
theorem pmTraceRay_scaled_on_accumulation_path_witness :
    pmCausticR.traceRay exRay 0 =
      (0.95 : ℚ) • pmHitAccum pmCausticR (fun r => pmCausticR.traceRay r 1) exRay 0
        (exRay.origin + (4 : ℚ) • exRay.direction)
        (primHit4.getNormal (exRay.origin + (4 : ℚ) • exRay.direction)) mDiffuse := by
  have hcast : pmCausticR.scene.rayCast exRay = some (0, 0, 4) := by
    norm_num [Scene.rayCast, Scene.scanGroups, Scene.scanPrims, Scene.bestDist,
      Scene.rcStep, pmCausticR, diffuseScene, primHit4, exRay, FLT_MAX, FLT_EPSILON]
  have hlen : ¬ (glmLength pmCausticR.ext exRay.direction < 1 - 10 * FLT_EPSILON ∨
      glmLength pmCausticR.ext exRay.direction > 1 + 10 * FLT_EPSILON) := by
    norm_num [glmLength, pmCausticR, extUnit, exRay, Vec3.dot, FLT_EPSILON]
  have hfront : ¬ Vec3.dot (-exRay.direction)
      (primHit4.getNormal (exRay.origin + (4 : ℚ) • exRay.direction)) < FLT_EPSILON := by
    norm_num [primHit4, exRay, Vec3.dot, FLT_EPSILON]
  exact (pmTraceRay_scaled_on_accumulation_path pmCausticR exRay 0 0 0 4
    ⟨mDiffuse, [primHit4], ⟨0, 0, 2⟩⟩ primHit4 (by norm_num [pmCausticR]) hlen hcast
    rfl rfl hfront).1 rfl

/-- Counterexample to claim C4: on a concrete non-emissive diffuse hit with
one caustic photon available exactly at the shading point, the caustic
gather the claim describes evaluates to `(1,1,1)` (with
`CAUSTICS_STRENGTH_MULTIPLIER = PHOTON_SEARCH_AREA = 1`), yet the trace
returns `(0,0,0)`: no non-negative remainder can make the returned
radiance contain the claimed caustic contribution, because
PhotonMapRenderer.cpp performs no caustic gather at all. -/
theorem pmTraceRay_no_caustic_gather_cex :
    pmCausticR.traceRay exRay 0 = 0 ∧
    pmCausticGatherClaim pmCausticR 1 1 ⟨0, 0, 1⟩ ⟨0, 0, 1⟩ exRay.direction mDiffuse
      = ⟨1, 1, 1⟩ ∧
    ¬ ∃ rest : Vec3, (0 ≤ rest.x ∧ 0 ≤ rest.y ∧ 0 ≤ rest.z) ∧
      pmCausticR.traceRay exRay 0 =
        (0.95 : ℚ) •
          (pmCausticGatherClaim pmCausticR 1 1 ⟨0, 0, 1⟩ ⟨0, 0, 1⟩ exRay.direction
            mDiffuse + rest) := by
  have hcast : pmCausticR.scene.rayCast exRay = some (0, 0, 4) := by
    norm_num [Scene.rayCast, Scene.scanGroups, Scene.scanPrims, Scene.bestDist,
      Scene.rcStep, pmCausticR, diffuseScene, primHit4, exRay, FLT_MAX, FLT_EPSILON]
  have hlen : ¬ (glmLength pmCausticR.ext exRay.direction < 1 - 10 * FLT_EPSILON ∨
      glmLength pmCausticR.ext exRay.direction > 1 + 10 * FLT_EPSILON) := by
    norm_num [glmLength, pmCausticR, extUnit, exRay, Vec3.dot, FLT_EPSILON]
  have hfront : ¬ Vec3.dot (-exRay.direction)
      (primHit4.getNormal (exRay.origin + (4 : ℚ) • exRay.direction)) < FLT_EPSILON := by
    norm_num [primHit4, exRay, Vec3.dot, FLT_EPSILON]
  have h0 : pmCausticR.traceRay exRay 0 = 0 := by
    rw [pmTraceRay_succ pmCausticR exRay 0 (by norm_num [pmCausticR])]
    rw [pmBody_nonEmissive pmCausticR _ 0 exRay 0 0 4 ⟨mDiffuse, [primHit4], ⟨0, 0, 2⟩⟩
      primHit4 hlen hcast rfl rfl hfront rfl]
    norm_num [pmHitAccum, pmDirectLight, pmIndirectGather, pmCausticR, diffuseScene,
      mDiffuse, primHit4, photonMapCausticOnly, exRay, extUnit, glmNormalize, glmLength,
      glmDistance, Vec3.dot, Material.calculateDiffuseLighting, FLT_MAX, FLT_EPSILON]
  have hclaim : pmCausticGatherClaim pmCausticR 1 1 ⟨0, 0, 1⟩ ⟨0, 0, 1⟩ exRay.direction
      mDiffuse = ⟨1, 1, 1⟩ := by
    norm_num [pmCausticGatherClaim, pmCausticR, photonMapCausticOnly, causticPhoton,
      primHit4, mDiffuse, extUnit, glmDistance, glmLength, Vec3.dot, clampTo1, exRay,
      Material.calculateDiffuseLighting]
  refine ⟨h0, hclaim, ?_⟩
  rintro ⟨rest, ⟨hx, -, -⟩, heq⟩
  rw [h0, hclaim] at heq
  have hc := congrArg Vec3.x heq
  simp at hc
  rcases hc with hc | hc
  · norm_num at hc
  · linarith

/-- Claim C4 as amended: the photon-map integrator of the source performs
no caustic gather — its result is entirely independent of the caustic
photons: two renderers identical except for the caustic query return the
same radiance for every ray and depth. The only photon query the trace
performs is for indirect photons. -/
theorem pmTraceRay_independent_of_caustic_photons
    (scene : Scene) (MAX_DEPTH : Nat) (PSR WF : ℚ)
    (qInd qC qC' : Vec3 → ℚ → List Photon) (ext : ExtOracle)
    (ray : Ray) (depth : Nat) :
    PhotonMapRenderer.traceRay ⟨scene, MAX_DEPTH, PSR, WF, ⟨qInd, qC⟩, ext⟩ ray depth =
    PhotonMapRenderer.traceRay ⟨scene, MAX_DEPTH, PSR, WF, ⟨qInd, qC'⟩, ext⟩ ray depth := by
  unfold PhotonMapRenderer.traceRay
  generalize MAX_DEPTH - depth = fuel
  induction fuel generalizing depth ray with
  | zero => rfl
  | succ fuel ih =>
    show (if depth == MAX_DEPTH then 0 else _) = (if depth == MAX_DEPTH then 0 else _)
    by_cases hd : depth == MAX_DEPTH
    · rw [if_pos hd, if_pos hd]
    · rw [if_neg hd, if_neg hd]
      have hrec : pmTraceRayF ⟨scene, MAX_DEPTH, PSR, WF, ⟨qInd, qC⟩, ext⟩ fuel (depth + 1) =
          pmTraceRayF ⟨scene, MAX_DEPTH, PSR, WF, ⟨qInd, qC'⟩, ext⟩ fuel (depth + 1) :=
        funext fun r => ih r (depth + 1)
      show pmBody _ (pmTraceRayF _ fuel (depth + 1)) depth ray = _
      rw [hrec]
      rfl

/-- Counterexample to claim C6: the source evaluates the photon's
primitive's normal at the shading intersection point (line 126), not at
the point where the photon landed. With a photon whose primitive has a
position-dependent normal, the sum the claim prescribes is `(0,0,0)` while
the gather the code computes is `(1,1,1)`. -/
theorem pmIndirectGather_photon_normal_cex :
    pmIndirectGather pmIndirectR ⟨0, 0, 1⟩ ⟨0, 0, 1⟩ exRay.direction mDiffuse
      = ⟨1, 1, 1⟩ ∧
    pmIndirectGatherClaim pmIndirectR ⟨0, 0, 1⟩ ⟨0, 0, 1⟩ exRay.direction mDiffuse
      = 0 ∧
    (⟨1, 1, 1⟩ : Vec3) ≠ (0 : Vec3) := by
  refine ⟨?_, ?_, by simp⟩
  · norm_num [pmIndirectGather, pmIndirectR, photonMapIndirectOnly, indirectPhoton,
      primNormId, mDiffuse, extUnit, glmDistance, glmLength, Vec3.dot, exRay,
      Material.calculateDiffuseLighting]
  · norm_num [pmIndirectGatherClaim, pmIndirectR, photonMapIndirectOnly, indirectPhoton,
      primNormId, mDiffuse, extUnit, glmDistance, glmLength, Vec3.dot, exRay]

/-- Claim C6 as amended: the indirect term of the photon-map integrator
sums, over the indirect photons gathered within `PHOTON_SEARCH_RADIUS`,
the Lambertian `max(0, dot(-photon_dir, N)) * (f * photon_energy) *
surface_colour` with
`f = (1/|photons|) * max(0, dot(photon_normal, N)) * max(0, 1 - dist * WEIGHT_FACTOR)`,
where `photon_normal` is the normal of the primitive the photon landed on
EVALUATED AT THE SHADING INTERSECTION POINT (not at the photon's own
position). -/
theorem pmIndirectGather_formula (R : PhotonMapRenderer) (P N rayDir : Vec3)
    (mat : Material) :
    pmIndirectGather R P N rayDir mat = pmIndirectGatherClaimAtHit R P N rayDir mat := by
  unfold pmIndirectGather pmIndirectGatherClaimAtHit
  have hsf : (if 0 < (R.photonMap.queryIndirect P R.PHOTON_SEARCH_RADIUS).length
      then 1 / ((R.photonMap.queryIndirect P R.PHOTON_SEARCH_RADIUS).length : ℚ)
      else 0) =
      1 / ((R.photonMap.queryIndirect P R.PHOTON_SEARCH_RADIUS).length : ℚ) := by
    cases h : (R.photonMap.queryIndirect P R.PHOTON_SEARCH_RADIUS).length with
    | zero => simp
    | succ n => simp
  simp only [gt_iff_lt, hsf, Material.calculateDiffuseLighting]

/-- Claim C10: `Scene::CalculateDirectIlluminationAtPos` divides by the
emissive-group count with no guard; on every scene whose emissive list is
empty (and for every position, incoming direction, primitive and material)
the final scale is the IEEE division `1.0f / 0.0f = +inf`, the accumulated
colour is exactly zero, and `inf * 0` is `NaN` in every channel, so the
result is not a finite Vec3. -/
theorem calculateDirectIllumination_empty_emissive_nan (s : Scene)
    (ext : ExtOracle) (pos incomingDirection : Vec3) (prim : Primitive)
    (material : Material) (hempty : s.emissiveRenderGroups = []) :
    s.calculateDirectIlluminationAtPos ext pos incomingDirection prim material =
      (F32.nan, F32.nan, F32.nan) ∧
    ((s.calculateDirectIlluminationAtPos ext pos incomingDirection prim
        material).1.isFinite = false ∧
      (s.calculateDirectIlluminationAtPos ext pos incomingDirection prim
        material).2.1.isFinite = false ∧
      (s.calculateDirectIlluminationAtPos ext pos incomingDirection prim
        material).2.2.isFinite = false) := by
  have h : s.calculateDirectIlluminationAtPos ext pos incomingDirection prim material =
      (F32.nan, F32.nan, F32.nan) := by
    unfold Scene.calculateDirectIlluminationAtPos
    rw [hempty]
    simp [F32.div, F32.mul]
  exact ⟨h, by rw [h]; exact ⟨rfl, rfl, rfl⟩⟩

/-- Witness for C10 on the concrete diffuse scene (whose emissive list is
empty): the result is `NaN` in every channel. -/
theorem calculateDirectIllumination_empty_emissive_nan_witness :
    diffuseScene.calculateDirectIlluminationAtPos extUnit ⟨0, 0, 0⟩ ⟨0, 0, -1⟩
      primHit4 mDiffuse = (F32.nan, F32.nan, F32.nan) := by
  exact (calculateDirectIllumination_empty_emissive_nan diffuseScene extUnit
    ⟨0, 0, 0⟩ ⟨0, 0, -1⟩ primHit4 mDiffuse rfl).1
